import Mathlib

/-!
Verification of the hushell core scheduling and memory subsystem.

Shallow embedding of the `hushell::core` C++ sources:

* `Result<T>` and `ErrorCode` from `include/nex/core/async_types.hpp`;
* `ObjectPool<T>` from `include/nex/core/memory_manager.hpp`;
* `WorkStealingPool` task submission and `PriorityTask` from
  `include/nex/core/scheduler.hpp`;
* `HighPerformanceAllocator::Impl` from `src/core/memory/memory_manager.cpp`.

Machine integers (`size_t`) are modelled as `Nat`, with an explicit
`% 2^64` at the places where the C++ code can wrap around.  Pointers into
the allocator's arena are modelled as byte offsets from the pool base
(`mmap` returns a page-aligned base, so an offset that is a multiple of an
alignment dividing the page size corresponds to an aligned pointer).
Fallible operations (`Result::value`, `submit_task`) return `Except`.
-/

namespace Hushell

/-! ## ErrorCode and Result (async_types.hpp) -/

/-- Source `enum class ErrorCode` from `async_types.hpp` (values 0 to 10). -/
inductive ErrorCode where
  | SUCCESS
  | INVALID_ARGUMENT
  | RESOURCE_EXHAUSTED
  | INTERNAL_ERROR
  | PLATFORM_ERROR
  | NETWORK_ERROR
  | TIMEOUT_ERROR
  | MODEL_NOT_FOUND
  | INFERENCE_FAILED
  | GPU_ERROR
  | MEMORY_ERROR
deriving DecidableEq

/-- Source `error_code_to_string` from `async_types.hpp`. -/
def error_code_to_string : ErrorCode → String
  | .SUCCESS => "Success"
  | .INVALID_ARGUMENT => "Invalid argument"
  | .RESOURCE_EXHAUSTED => "Resource exhausted"
  | .INTERNAL_ERROR => "Internal error"
  | .PLATFORM_ERROR => "Platform error"
  | .NETWORK_ERROR => "Network error"
  | .TIMEOUT_ERROR => "Timeout error"
  | .MODEL_NOT_FOUND => "Model not found"
  | .INFERENCE_FAILED => "Inference failed"
  | .GPU_ERROR => "GPU error"
  | .MEMORY_ERROR => "Memory error"

/-- Source `Result<T>` from `async_types.hpp`: an `std::optional<T>` value slot
plus an error code and an error message.  The private constructor stores
all three fields; we expose the same fields. -/
structure Result (T : Type) where
  value? : Option T
  error_code : ErrorCode
  error_message : String
deriving DecidableEq

namespace Result

/-- Source `Result<T>::success(value)`: `Result{std::move(value), ErrorCode::SUCCESS, ""}`. -/
def success {T : Type} (value : T) : Result T :=
  ⟨some value, ErrorCode.SUCCESS, ""⟩

/-- Source `Result<T>::error(code, message)`: an empty message is replaced by
`error_code_to_string(code)`. -/
def error (T : Type) (code : ErrorCode) (message : String) : Result T :=
  ⟨none, code, if message = "" then error_code_to_string code else message⟩

/-- Source `Result<T>::is_success()`: `value_.has_value()`. -/
def is_success {T : Type} (r : Result T) : Bool :=
  r.value?.isSome

/-- Source `Result<T>::is_error()`: `!value_.has_value()`. -/
def is_error {T : Type} (r : Result T) : Bool :=
  !r.value?.isSome

/-- Source `Result<T>::value()`: returns the contained value, or throws
`std::runtime_error("Attempted to access value of failed Result")` when
no value is present.  The throw is modelled as `Except.error`. -/
def value {T : Type} (r : Result T) : Except String T :=
  match r.value? with
  | some v => Except.ok v
  | none => Except.error "Attempted to access value of failed Result"

/-- Source `Result<T>::map(f)`: on error, rebuilds the error through the
`error` factory from the stored code and message; on success, wraps
`f(value())` with the `success` factory. -/
def map {T R : Type} (r : Result T) (f : T → R) : Result R :=
  match r.value? with
  | none => Result.error R r.error_code r.error_message
  | some v => Result.success (f v)

end Result

/-! ## Claim C7: Result map laws -/

/-- C7: for every value `x` and pure `f`, `g`,
`Result::success(x).map(f).map(g) = Result::success(g(f(x)))`, and for
every error code `c`, non-empty message `m` and function `f'`,
`Result::error(c,m).map(f')` is `Result::error(c,m)` with code and
message unchanged. -/
theorem C7_result_map_laws (T R S : Type) (x : T) (f : T → R) (g : R → S)
    (c : ErrorCode) (m : String) (hm : m ≠ "") (f' : T → R) :
    (((Result.success x).map f).map g = Result.success (g (f x))) ∧
    ((Result.error T c m).map f' = Result.error R c m) := by
  constructor
  · rfl
  · simp [Result.error, Result.map, hm]

/-- C7 witness: the map laws applied at `x = 10`, `f = (· * 2)`,
`g = (· + 1)`, `c = INVALID_ARGUMENT`, `m = "Test error"`. -/
theorem C7_result_map_laws_witness :
    ("Test error" ≠ "") ∧
    (((Result.success 10).map (· * 2)).map (· + 1) = Result.success 21) ∧
    ((Result.error Nat ErrorCode.INVALID_ARGUMENT "Test error").map (· * 2) =
      Result.error Nat ErrorCode.INVALID_ARGUMENT "Test error") := by
  refine ⟨by decide, ?_, ?_⟩
  · exact (C7_result_map_laws Nat Nat Nat 10 (· * 2) (· + 1)
      ErrorCode.INVALID_ARGUMENT "Test error" (by decide) (· * 2)).1
  · exact (C7_result_map_laws Nat Nat Nat 10 (· * 2) (· + 1)
      ErrorCode.INVALID_ARGUMENT "Test error" (by decide) (· * 2)).2

/-! ## Claim C8: Result::value error behaviour -/

/-- C8: `Result<T>::value()` returns the contained value when the result
is a success, and throws (modelled as `Except.error`) exactly when
`is_error()` holds. -/
theorem C8_result_value (T : Type) (r : Result T) :
    (∀ v : T, r.value? = some v → r.value = Except.ok v) ∧
    ((∃ e, r.value = Except.error e) ↔ r.is_error = true) := by
  constructor
  · intro v hv
    simp [Result.value, hv]
  · constructor
    · rintro ⟨e, he⟩
      cases hv : r.value? with
      | none => simp [Result.is_error, hv]
      | some v => simp [Result.value, hv] at he
    · intro herr
      cases hv : r.value? with
      | none =>
        exact ⟨"Attempted to access value of failed Result", by simp [Result.value, hv]⟩
      | some v => simp [Result.is_error, hv] at herr

/-- C8 witness: `value()` on `success 42` returns `42`; `value()` on
`error(INVALID_ARGUMENT, "Test error")` throws. -/
theorem C8_result_value_witness :
    ((Result.success 42).value = Except.ok 42) ∧
    (∃ e, (Result.error Nat ErrorCode.INVALID_ARGUMENT "Test error").value =
      Except.error e) := by
  constructor
  · exact (C8_result_value Nat (Result.success 42)).1 42 rfl
  · exact ((C8_result_value Nat
      (Result.error Nat ErrorCode.INVALID_ARGUMENT "Test error")).2).mpr (by decide)

/-! ## ObjectPool (memory_manager.hpp)

`ObjectPool<T>` keeps a `std::vector<std::unique_ptr<T>>` of resident
objects.  The vector is modelled head-first: `emplace_back`/`pop_back`
act on the head of the list (the claims only depend on the length).
`std::make_unique<T>()` is modelled through `Inhabited α`; the duck-typed
`reset()` hook mutates the object in place and is the identity on this
abstract object model. -/

structure ObjectPool (α : Type) where
  pool : List α
  max_size : Nat
  allocated_count : Nat
  acquired_count : Nat
  released_count : Nat
deriving DecidableEq

namespace ObjectPool

/-- Source `ObjectPool(initial_size, max_size)`: pre-fills `initial_size`
default-constructed objects; the counters start at zero.  Note the
constructor does not clamp `initial_size` to `max_size`. -/
def init (α : Type) [Inhabited α] (initial_size max_size : Nat) : ObjectPool α :=
  ⟨List.replicate initial_size default, max_size, 0, 0, 0⟩

/-- Source `ObjectPool::acquire()`: pops the vector's back if non-empty
(bumping `acquired_count_`), otherwise constructs a new object
(bumping `allocated_count_`). -/
def acquire {α : Type} [Inhabited α] (p : ObjectPool α) : ObjectPool α × α :=
  match p.pool with
  | obj :: rest =>
      ({ p with pool := rest, acquired_count := p.acquired_count + 1 }, obj)
  | [] =>
      ({ p with allocated_count := p.allocated_count + 1 }, default)

/-- Source `ObjectPool::release(obj)`: a null pointer is ignored; otherwise, if
`pool_.size() < max_size_`, the object is reset and pushed back
(bumping `released_count_`); otherwise it is destroyed (dropped). -/
def release {α : Type} (p : ObjectPool α) (obj : Option α) : ObjectPool α :=
  match obj with
  | none => p
  | some o =>
      if p.pool.length < p.max_size then
        { p with pool := o :: p.pool, released_count := p.released_count + 1 }
      else p

/-- Source `ObjectPool::available()`: `pool_.size()`. -/
def available {α : Type} (p : ObjectPool α) : Nat :=
  p.pool.length

/-- Source `ObjectPool::capacity()`: `max_size_`. -/
def capacity {α : Type} (p : ObjectPool α) : Nat :=
  p.max_size

end ObjectPool

/-- One call against an `ObjectPool`: an `acquire()` or a `release(obj)`. -/
inductive PoolOp (α : Type) where
  | acquire
  | release (obj : Option α)

/-- Runs a sequence of acquire/release calls against an `ObjectPool`. -/
def runPool {α : Type} [Inhabited α] (p : ObjectPool α) : List (PoolOp α) → ObjectPool α
  | [] => p
  | PoolOp.acquire :: ops => runPool (p.acquire).1 ops
  | PoolOp.release obj :: ops => runPool (p.release obj) ops

/-- Source `acquire` never grows the resident list and never changes `max_size`. -/
theorem ObjectPool.acquire_length_le {α : Type} [Inhabited α] (p : ObjectPool α) :
    (p.acquire).1.pool.length ≤ p.pool.length ∧ (p.acquire).1.max_size = p.max_size := by
  cases hp : p.pool with
  | nil => simp [ObjectPool.acquire, hp]
  | cons o rest => simp [ObjectPool.acquire, hp]

/-- Source `release` keeps the resident count at or below `max_size` whenever it
was there before, and never changes `max_size`. -/
theorem ObjectPool.release_length_le {α : Type} (p : ObjectPool α) (obj : Option α)
    (h : p.pool.length ≤ p.max_size) :
    (p.release obj).pool.length ≤ p.max_size ∧ (p.release obj).max_size = p.max_size := by
  cases obj with
  | none => simpa [ObjectPool.release] using h
  | some o =>
    by_cases hlt : p.pool.length < p.max_size
    · simp [ObjectPool.release, hlt]
      omega
    · simpa [ObjectPool.release, hlt] using h

/-- The resident-count bound is an inductive invariant of `runPool`. -/
theorem runPool_length_le {α : Type} [Inhabited α] (ops : List (PoolOp α))
    (p : ObjectPool α) (h : p.pool.length ≤ p.max_size) :
    (runPool p ops).pool.length ≤ (runPool p ops).max_size := by
  induction ops generalizing p with
  | nil => simpa [runPool] using h
  | cons op ops ih =>
    cases op with
    | acquire =>
      have hstep := ObjectPool.acquire_length_le p
      have : (p.acquire).1.pool.length ≤ (p.acquire).1.max_size := by
        rw [hstep.2]; exact le_trans hstep.1 h
      simpa [runPool] using ih (p.acquire).1 this
    | release obj =>
      have hstep := ObjectPool.release_length_le p obj h
      have : (p.release obj).pool.length ≤ (p.release obj).max_size := by
        rw [hstep.2]; exact hstep.1
      simpa [runPool] using ih (p.release obj) this

/-! ## Claim C4: ObjectPool resident bound -/

/-- C4 counterexample: the claim quantifies over constructor calls as
well, but `ObjectPool(initial_size, max_size)` pre-fills `initial_size`
objects without clamping to `max_size`, so `ObjectPool(2, 1)` starts
with `available() = 2 > 1 = capacity()`. -/
theorem C4_pool_bound_counterexample :
    (ObjectPool.init Unit 2 1).capacity < (ObjectPool.init Unit 2 1).available := by
  decide

/-- C4 amended: provided the pool is constructed with
`initial_size ≤ max_size`, every sequence of acquire/release calls keeps
`available() ≤ capacity()`; and a release performed when the resident
count is already at (or beyond) `max_size` destroys the object instead
of retaining it, leaving the pool state unchanged. -/
theorem C4_pool_bound (α : Type) [Inhabited α]
    (initial_size max_size : Nat) (hinit : initial_size ≤ max_size)
    (ops : List (PoolOp α)) :
    ((runPool (ObjectPool.init α initial_size max_size) ops).available ≤
      (runPool (ObjectPool.init α initial_size max_size) ops).capacity) ∧
    (∀ (p : ObjectPool α) (obj : α), p.max_size ≤ p.pool.length →
      p.release (some obj) = p) := by
  constructor
  · exact runPool_length_le ops _ (by simpa [ObjectPool.init] using hinit)
  · intro p obj hfull
    simp [ObjectPool.release, Nat.not_lt.mpr hfull]

/-- C4 witness: a pool built as `ObjectPool(1, 1)`, after an acquire and
two releases, still satisfies `available() ≤ capacity()`; releasing into
a full pool of capacity 1 leaves it unchanged. -/
theorem C4_pool_bound_witness :
    ((runPool (ObjectPool.init Unit 1 1)
        [PoolOp.acquire, PoolOp.release (some ()), PoolOp.release (some ())]).available ≤
      (runPool (ObjectPool.init Unit 1 1)
        [PoolOp.acquire, PoolOp.release (some ()), PoolOp.release (some ())]).capacity) ∧
    ((ObjectPool.mk [()] 1 0 0 0).release (some ()) = ObjectPool.mk [()] 1 0 0 0) := by
  have h := C4_pool_bound Unit 1 1 (by decide)
    [PoolOp.acquire, PoolOp.release (some ()), PoolOp.release (some ())]
  exact ⟨h.1, h.2 (ObjectPool.mk [()] 1 0 0 0) () (by decide)⟩

/-! ## WorkStealingPool (scheduler.hpp)

Task payloads (`std::function<void()>` closures) are opaque; they are
modelled by a type parameter `τ`.  `std::priority_queue<PriorityTask>`
is external library code: it is modelled by its contract from the C++
standard — `top()`/`pop()` operate on a greatest element with respect to
the element comparator `PriorityTask::operator<`.  The queue is realized
as the list of queued entries; `pqPop` removes a greatest element under
the comparator (ties between equal priorities are resolved towards the
earlier entry, matching the source's unspecified equal-priority order). -/

/-- Source `enum class TaskPriority` from `scheduler.hpp`:
`LOW = 0, NORMAL = 1, HIGH = 2, CRITICAL = 3`. -/
inductive TaskPriority where
  | LOW
  | NORMAL
  | HIGH
  | CRITICAL
deriving DecidableEq

/-- The underlying integer value of the `TaskPriority` enumerator. -/
def TaskPriority.val : TaskPriority → Nat
  | .LOW => 0
  | .NORMAL => 1
  | .HIGH => 2
  | .CRITICAL => 3

/-- Source `WorkStealingPool::PriorityTask`: a priority together with the
wrapped task closure. -/
structure PriorityTask (τ : Type) where
  priority : TaskPriority
  task : τ
deriving DecidableEq

/-- Source `PriorityTask::operator<`: `priority < other.priority`, comparing
only the enumerator values (the comment in the source notes the
priority queue is a max-heap). -/
def PriorityTask.lt {τ : Type} (a b : PriorityTask τ) : Prop :=
  a.priority.val < b.priority.val

instance {τ : Type} : DecidablePred fun p : PriorityTask τ × PriorityTask τ =>
    PriorityTask.lt p.1 p.2 := fun _ => Nat.decLt _ _

instance PriorityTask.decLt {τ : Type} (a b : PriorityTask τ) :
    Decidable (PriorityTask.lt a b) := Nat.decLt _ _

/-- Removal of a greatest element (w.r.t. `PriorityTask.lt`) from the
queue: the contract of `std::priority_queue::top()`/`pop()` with the
source's comparator.  On ties the earlier entry is taken. -/
def pqPop {τ : Type} : List (PriorityTask τ) →
    Option (PriorityTask τ × List (PriorityTask τ))
  | [] => none
  | t :: ts =>
    match pqPop ts with
    | none => some (t, [])
    | some (m, rest) =>
      if PriorityTask.lt t m then some (m, t :: rest) else some (t, ts)

/-- Source `WorkStealingPool` queue state: the shutdown flag, the shared FIFO
task queue `tasks_`, and the priority queue `priority_tasks_`. -/
structure PoolState (τ : Type) where
  shutdown : Bool
  tasks : List τ
  priority_tasks : List (PriorityTask τ)
deriving DecidableEq

/-- Source `WorkStealingPool::submit_task`: under the queue mutex, throws
`std::runtime_error("ThreadPool is shutting down")` when the shutdown
flag is set, otherwise pushes the packaged task onto `tasks_` and
returns the future (the enqueued state). -/
def submit_task {τ : Type} (st : PoolState τ) (t : τ) : Except String (PoolState τ) :=
  if st.shutdown then Except.error "ThreadPool is shutting down"
  else Except.ok { st with tasks := st.tasks ++ [t] }

/-- Source `WorkStealingPool::submit_priority_task`: same shutdown check;
otherwise emplaces `{priority, task}` into `priority_tasks_`. -/
def submit_priority_task {τ : Type} (st : PoolState τ) (priority : TaskPriority)
    (t : τ) : Except String (PoolState τ) :=
  if st.shutdown then Except.error "ThreadPool is shutting down"
  else Except.ok { st with priority_tasks := st.priority_tasks ++ [⟨priority, t⟩] }

/-- Whether a submission threw. -/
def throws {ε α : Type} : Except ε α → Bool
  | Except.error _ => true
  | Except.ok _ => false

/-- Source `pqPop` returns `none` only on the empty queue. -/
theorem pqPop_eq_none {τ : Type} (q : List (PriorityTask τ)) :
    pqPop q = none ↔ q = [] := by
  cases q with
  | nil => simp [pqPop]
  | cons t ts =>
    simp only [pqPop]
    cases pqPop ts with
    | none => simp
    | some pr =>
      obtain ⟨m, rest⟩ := pr
      by_cases h : PriorityTask.lt t m <;> simp [h]

/-- Source `pqPop` returns an element no smaller (under the comparator) than
anything in the queue. -/
theorem pqPop_max {τ : Type} (q : List (PriorityTask τ))
    (m : PriorityTask τ) (q' : List (PriorityTask τ))
    (hpop : pqPop q = some (m, q')) :
    ∀ s ∈ q, s.priority.val ≤ m.priority.val := by
  induction q generalizing m q' with
  | nil => simp [pqPop] at hpop
  | cons t ts ih =>
    intro s hs
    cases hrec : pqPop ts with
    | none =>
      have hts : ts = [] := (pqPop_eq_none ts).mp hrec
      subst hts
      have h : pqPop [t] = some (t, []) := rfl
      rw [h] at hpop
      cases hpop
      rcases List.mem_singleton.mp hs with rfl
      exact Nat.le_refl _
    | some pr =>
      obtain ⟨m', rest⟩ := pr
      have hmax' := ih m' rest hrec
      by_cases hlt : PriorityTask.lt t m'
      · rw [show pqPop (t :: ts) = some (m', t :: rest) by
          simp [pqPop, hrec, if_pos hlt]] at hpop
        cases hpop
        rcases List.mem_cons.mp hs with rfl | hmem
        · exact Nat.le_of_lt hlt
        · exact hmax' s hmem
      · rw [show pqPop (t :: ts) = some (t, ts) by
          simp [pqPop, hrec, if_neg hlt]] at hpop
        cases hpop
        rcases List.mem_cons.mp hs with rfl | hmem
        · exact Nat.le_refl _
        · exact Nat.le_trans (hmax' s hmem) (Nat.le_of_not_lt hlt)

/-! ## Claim C5: priority ordering -/

/-- C5: the priority enumerator values satisfy
`CRITICAL > HIGH > NORMAL > LOW`; the queue comparator compares exactly
those values; and whenever two tasks of different priorities are both in
the priority queue, the dequeued element has priority strictly above the
lower of the two — so the strictly-higher-priority task is dequeued
first, while equal-priority order is left unspecified. -/
theorem C5_priority_order (τ : Type) :
    (TaskPriority.val .LOW < TaskPriority.val .NORMAL ∧
     TaskPriority.val .NORMAL < TaskPriority.val .HIGH ∧
     TaskPriority.val .HIGH < TaskPriority.val .CRITICAL) ∧
    (∀ a b : PriorityTask τ, PriorityTask.lt a b ↔ a.priority.val < b.priority.val) ∧
    (∀ (q : List (PriorityTask τ)) (m : PriorityTask τ)
       (q' : List (PriorityTask τ)), pqPop q = some (m, q') →
       ∀ s ∈ q, ∀ t ∈ q, s.priority.val < t.priority.val →
         s.priority.val < m.priority.val) := by
  refine ⟨by decide, fun a b => Iff.rfl, ?_⟩
  intro q m q' hpop s hs t ht hst
  exact Nat.lt_of_lt_of_le hst (pqPop_max q m q' hpop t ht)

/-- C5 witness: with a LOW and a CRITICAL task queued (LOW first), the
dequeued task is the CRITICAL one and the LOW task's priority is
strictly below the dequeued priority. -/
theorem C5_priority_order_witness :
    (pqPop [PriorityTask.mk TaskPriority.LOW 0, PriorityTask.mk TaskPriority.CRITICAL 1] =
      some (PriorityTask.mk TaskPriority.CRITICAL 1,
            [PriorityTask.mk TaskPriority.LOW 0])) ∧
    (PriorityTask.mk TaskPriority.LOW (0 : Nat)).priority.val <
      (PriorityTask.mk TaskPriority.CRITICAL 1).priority.val := by
  refine ⟨by decide, ?_⟩
  exact (C5_priority_order Nat).2.2
    [PriorityTask.mk TaskPriority.LOW 0, PriorityTask.mk TaskPriority.CRITICAL 1]
    (PriorityTask.mk TaskPriority.CRITICAL 1) [PriorityTask.mk TaskPriority.LOW 0]
    (by decide)
    (PriorityTask.mk TaskPriority.LOW 0) (by decide)
    (PriorityTask.mk TaskPriority.CRITICAL 1) (by decide)
    (by decide)

/-! ## Claim C6: submission throws iff shutting down -/

/-- C6: `submit_task` and `submit_priority_task` throw synchronously if
and only if the pool's shutdown flag is set at submission time;
otherwise they enqueue the task (FIFO push for `submit_task`, priority
queue emplace for `submit_priority_task`) and return normally. -/
theorem C6_submit_shutdown (τ : Type) (st : PoolState τ) (t : τ)
    (priority : TaskPriority) :
    (throws (submit_task st t) = st.shutdown) ∧
    (throws (submit_priority_task st priority t) = st.shutdown) ∧
    (st.shutdown = false →
      submit_task st t = Except.ok { st with tasks := st.tasks ++ [t] } ∧
      submit_priority_task st priority t =
        Except.ok { st with priority_tasks := st.priority_tasks ++ [⟨priority, t⟩] }) := by
  refine ⟨?_, ?_, ?_⟩
  · cases h : st.shutdown <;> simp [submit_task, throws, h]
  · cases h : st.shutdown <;> simp [submit_priority_task, throws, h]
  · intro h
    exact ⟨by simp [submit_task, h], by simp [submit_priority_task, h]⟩

/-- C6 witness: on a live pool submission enqueues; on a shut-down pool
it throws. -/
theorem C6_submit_shutdown_witness :
    (submit_task (PoolState.mk false [] []) (0 : Nat) =
      Except.ok (PoolState.mk false [0] [])) ∧
    (throws (submit_task (PoolState.mk true [] ([] : List (PriorityTask Nat))) 0) = true) := by
  constructor
  · exact ((C6_submit_shutdown Nat (PoolState.mk false [] []) 0
      TaskPriority.NORMAL).2.2 rfl).1
  · exact (C6_submit_shutdown Nat (PoolState.mk true [] []) 0
      TaskPriority.NORMAL).1

/-! ## HighPerformanceAllocator (memory_manager.cpp)

`HighPerformanceAllocator::Impl` manages a fixed arena obtained from
`mmap` at construction (assumed to succeed, as on any normally
configured host).  Pointers are modelled as byte offsets from the pool
base; `mmap` returns a page-aligned base, so offset `0` is the base
itself.  `free_blocks_` is a `std::vector<FreeBlock>` (kept in order),
`allocated_blocks_` a `std::unordered_map<void*, size_t>` (an
association list with unique keys: assignment replaces any entry with
the same key, lookup is by key only).  Of `MemoryStats` only the four
fields the allocator updates are modelled; `fragmentation_ratio` is a
`double` computed only inside `get_stats` and is not needed here. -/

/-- Source `HighPerformanceAllocator::Impl::FreeBlock`: offset and size. -/
structure FreeBlock where
  ptr : Nat
  size : Nat
deriving DecidableEq

/-- The `MemoryStats` counters maintained by the allocator. -/
structure MemoryStats where
  current_usage : Nat
  peak_usage : Nat
  allocation_count : Nat
  deallocation_count : Nat
deriving DecidableEq

/-- The state of `HighPerformanceAllocator::Impl`. -/
structure AllocState where
  pool_size : Nat
  free_blocks : List FreeBlock
  allocated_blocks : List (Nat × Nat)
  allocated_size : Nat
  stats : MemoryStats
deriving DecidableEq

/-- Constructor plus `initialize_pool()`: the whole arena is one free
block starting at the (page-aligned) pool base, offset `0`. -/
def init_state (pool_size : Nat) : AllocState :=
  ⟨pool_size, [⟨0, pool_size⟩], [], 0, ⟨0, 0, 0, 0⟩⟩

/-- Source `size_t aligned_size = (size + alignment - 1) & ~(alignment - 1);`
For the power-of-two alignments the allocator is called with, clearing
the low bits of `x` with `~(alignment - 1)` is exactly subtracting
`x % alignment`; the `% 2^64` keeps the `size_t` wrap-around of the sum
explicit. -/
def align_up (size alignment : Nat) : Nat :=
  let x := (size + alignment - 1) % 2 ^ 64
  x - x % alignment

/-- The first-fit scan of `allocate`: finds the first free block with
`it->size >= aligned_size`, removing it (`free_blocks_.erase(it)`)
while keeping the order of the remaining blocks. -/
def removeFirstFit (asize : Nat) : List FreeBlock →
    Option (FreeBlock × List FreeBlock)
  | [] => none
  | b :: bs =>
    if asize ≤ b.size then some (b, bs)
    else
      match removeFirstFit asize bs with
      | none => none
      | some (m, rest) => some (m, b :: rest)

/-- Source `HighPerformanceAllocator::Impl::allocate(size, alignment)`:
first-fit scan; on a match the block is removed, a remainder block is
split off only when `block_size > aligned_size + alignment` (otherwise
any leftover bytes are dropped from both lists), the allocation is
recorded in `allocated_blocks_` and the counters are updated.  Returns
the block's start pointer unchanged; returns `nullptr` (`none`) when no
free block fits. -/
def allocate (st : AllocState) (size alignment : Nat) :
    Option Nat × AllocState :=
  let aligned_size := align_up size alignment
  match removeFirstFit aligned_size st.free_blocks with
  | none => (none, st)
  | some (blk, rest) =>
    let free1 :=
      if aligned_size + alignment < blk.size then
        rest ++ [⟨blk.ptr + aligned_size, blk.size - aligned_size⟩]
      else rest
    (some blk.ptr,
      { st with
        free_blocks := free1,
        allocated_blocks :=
          (blk.ptr, aligned_size) ::
            st.allocated_blocks.filter (fun q => q.1 ≠ blk.ptr),
        allocated_size := st.allocated_size + aligned_size,
        stats :=
          { current_usage := st.stats.current_usage + aligned_size,
            peak_usage :=
              max st.stats.peak_usage (st.stats.current_usage + aligned_size),
            allocation_count := st.stats.allocation_count + 1,
            deallocation_count := st.stats.deallocation_count } })

/-- Source `allocated_blocks_.find(ptr)`: the recorded size of a live
allocation, if any. -/
def lookupBlock (m : List (Nat × Nat)) (p : Nat) : Option Nat :=
  (m.find? (fun q => q.1 = p)).map (fun q => q.2)

/-- The `std::sort` call of `merge_free_blocks` with comparator
`a.ptr < b.ptr`, realized as insertion sort (free-block start offsets
are pairwise distinct in every reachable state, so any sort by `ptr`
produces the same list). -/
def insertByPtr (b : FreeBlock) : List FreeBlock → List FreeBlock
  | [] => [b]
  | c :: cs => if b.ptr ≤ c.ptr then b :: c :: cs else c :: insertByPtr b cs

/-- Address-sorting pass of `merge_free_blocks`. -/
def sortByPtr : List FreeBlock → List FreeBlock
  | [] => []
  | b :: bs => insertByPtr b (sortByPtr bs)

/-- The merge loop of `merge_free_blocks` on the address-sorted vector:
starting at `i = 0`, while `i < free_blocks_.size() - 1`, absorb block
`i+1` into block `i` when `ptr_i + size_i == ptr_{i+1}` (staying at
`i`), else advance.  On an empty vector the loop bound underflows in
`size_t`; see `merge_accesses_in_bounds` below — this total model
returns `[]` there. -/
def mergeAdjacent : List FreeBlock → List FreeBlock
  | [] => []
  | [b] => [b]
  | a :: b :: rest =>
    if a.ptr + a.size = b.ptr then
      mergeAdjacent (⟨a.ptr, a.size + b.size⟩ :: rest)
    else
      a :: mergeAdjacent (b :: rest)
termination_by l => l.length

/-- Source `HighPerformanceAllocator::Impl::merge_free_blocks()`. -/
def merge_free_blocks (blocks : List FreeBlock) : List FreeBlock :=
  mergeAdjacent (sortByPtr blocks)

/-- Source `HighPerformanceAllocator::Impl::deallocate(ptr, size)`: a null
pointer returns immediately; otherwise the pointer is looked up in
`allocated_blocks_` and, when absent, nothing happens at all.  When
found, the entry moves back to the free list with its recorded size
(the `size` argument is ignored), the merge pass runs, and the counters
are updated. -/
def deallocate (st : AllocState) : Option Nat → Nat → AllocState
  | none, _ => st
  | some p, _size =>
    match lookupBlock st.allocated_blocks p with
    | none => st
    | some block_size =>
      { st with
        allocated_blocks := st.allocated_blocks.filter (fun q => q.1 ≠ p),
        free_blocks := merge_free_blocks (st.free_blocks ++ [⟨p, block_size⟩]),
        allocated_size := st.allocated_size - block_size,
        stats :=
          { current_usage := st.stats.current_usage - block_size,
            peak_usage := st.stats.peak_usage,
            allocation_count := st.stats.allocation_count,
            deallocation_count := st.stats.deallocation_count + 1 } }

/-- Source `HighPerformanceAllocator::Impl::compact()`: runs the merge pass on
the current free list. -/
def compact (st : AllocState) : AllocState :=
  { st with free_blocks := merge_free_blocks st.free_blocks }

/-- One external call to the allocator. -/
inductive AllocOp where
  | alloc (size alignment : Nat)
  | dealloc (ptr : Option Nat) (size : Nat)

/-- Runs a sequence of allocate/deallocate calls. -/
def runOps (st : AllocState) : List AllocOp → AllocState
  | [] => st
  | AllocOp.alloc size alignment :: ops => runOps (allocate st size alignment).2 ops
  | AllocOp.dealloc ptr size :: ops => runOps (deallocate st ptr size) ops

/-- Total size of the free blocks. -/
def sumFree : List FreeBlock → Nat
  | [] => 0
  | b :: bs => b.size + sumFree bs

/-- Total recorded size of the live allocations. -/
def sumAlloc : List (Nat × Nat) → Nat
  | [] => 0
  | q :: qs => q.2 + sumAlloc qs

/-- The loop bound `free_blocks_.size() - 1` as the C++ computes it:
`size_t` subtraction, which wraps to `2^64 - 1` when the vector is
empty. -/
def size_t_sub_one (n : Nat) : Nat :=
  (n + (2 ^ 64 - 1)) % 2 ^ 64

/-- The merge loop's first iteration reads `free_blocks_[0]` and
`free_blocks_[1]`; whenever the loop is entered (`0 < size() - 1` in
`size_t`) those reads must be in bounds. -/
def merge_accesses_in_bounds (blocks : List FreeBlock) : Prop :=
  0 < size_t_sub_one blocks.length → 2 ≤ blocks.length

instance (blocks : List FreeBlock) : Decidable (merge_accesses_in_bounds blocks) := by
  unfold merge_accesses_in_bounds
  infer_instance

/-- Source `allocate` when the first-fit scan fails. -/
theorem allocate_eq_none (st : AllocState) (size alignment : Nat)
    (h : removeFirstFit (align_up size alignment) st.free_blocks = none) :
    allocate st size alignment = (none, st) := by
  unfold allocate
  dsimp only
  rw [h]

/-- Source `allocate` when the first-fit scan picks `blk`, removing it and
leaving `rest`. -/
theorem allocate_eq_some (st : AllocState) (size alignment : Nat)
    (blk : FreeBlock) (rest : List FreeBlock)
    (h : removeFirstFit (align_up size alignment) st.free_blocks = some (blk, rest)) :
    allocate st size alignment =
      (some blk.ptr,
        { st with
          free_blocks :=
            if align_up size alignment + alignment < blk.size then
              rest ++ [⟨blk.ptr + align_up size alignment,
                        blk.size - align_up size alignment⟩]
            else rest,
          allocated_blocks :=
            (blk.ptr, align_up size alignment) ::
              st.allocated_blocks.filter (fun q => q.1 ≠ blk.ptr),
          allocated_size := st.allocated_size + align_up size alignment,
          stats :=
            { current_usage := st.stats.current_usage + align_up size alignment,
              peak_usage :=
                max st.stats.peak_usage
                  (st.stats.current_usage + align_up size alignment),
              allocation_count := st.stats.allocation_count + 1,
              deallocation_count := st.stats.deallocation_count } }) := by
  unfold allocate
  dsimp only
  rw [h]

/-- Source `deallocate` on a pointer that is not a live allocation. -/
theorem deallocate_not_found (st : AllocState) (p : Nat) (size : Nat)
    (h : lookupBlock st.allocated_blocks p = none) :
    deallocate st (some p) size = st := by
  unfold deallocate
  dsimp only
  rw [h]

/-- Source `deallocate` on a live allocation of recorded size `block_size`. -/
theorem deallocate_found (st : AllocState) (p : Nat) (size block_size : Nat)
    (h : lookupBlock st.allocated_blocks p = some block_size) :
    deallocate st (some p) size =
      { st with
        allocated_blocks := st.allocated_blocks.filter (fun q => q.1 ≠ p),
        free_blocks := merge_free_blocks (st.free_blocks ++ [⟨p, block_size⟩]),
        allocated_size := st.allocated_size - block_size,
        stats :=
          { current_usage := st.stats.current_usage - block_size,
            peak_usage := st.stats.peak_usage,
            allocation_count := st.stats.allocation_count,
            deallocation_count := st.stats.deallocation_count + 1 } } := by
  unfold deallocate
  dsimp only
  rw [h]

/-- The first-fit scan fails exactly when no free block is big enough. -/
theorem removeFirstFit_none_iff (asize : Nat) (blocks : List FreeBlock) :
    removeFirstFit asize blocks = none ↔ ∀ b ∈ blocks, b.size < asize := by
  induction blocks with
  | nil => simp [removeFirstFit]
  | cons b bs ih =>
    by_cases h : asize ≤ b.size
    · simp only [removeFirstFit, if_pos h]
      constructor
      · intro hc; cases hc
      · intro hall
        exact absurd (hall b (List.mem_cons_self b bs)) (by omega)
    · simp only [removeFirstFit, if_neg h]
      cases hr : removeFirstFit asize bs with
      | none =>
        constructor
        · intro _ x hx
          rcases List.mem_cons.mp hx with rfl | hmem
          · omega
          · exact (ih.mp hr) x hmem
        · intro _; rfl
      | some pr =>
        obtain ⟨m, rest⟩ := pr
        constructor
        · intro hc; exact Option.noConfusion hc
        · intro hall
          have hbs : ∀ x ∈ bs, x.size < asize :=
            fun x hx => hall x (List.mem_cons_of_mem b hx)
          rw [ih.mpr hbs] at hr
          exact Option.noConfusion hr

/-- What the first-fit scan returns: a block of the original list that
fits, and the original list minus that block (order preserved; the sum
of sizes splits accordingly). -/
theorem removeFirstFit_spec (asize : Nat) (blocks : List FreeBlock)
    (b : FreeBlock) (rest : List FreeBlock)
    (h : removeFirstFit asize blocks = some (b, rest)) :
    asize ≤ b.size ∧ sumFree blocks = b.size + sumFree rest ∧
      b ∈ blocks ∧ ∀ x ∈ rest, x ∈ blocks := by
  induction blocks generalizing b rest with
  | nil => simp [removeFirstFit] at h
  | cons c cs ih =>
    by_cases hc : asize ≤ c.size
    · rw [show removeFirstFit asize (c :: cs) = some (c, cs) by
        simp [removeFirstFit, if_pos hc]] at h
      cases h
      exact ⟨hc, rfl, List.mem_cons_self c cs,
        fun x hx => List.mem_cons_of_mem c hx⟩
    · simp only [removeFirstFit, if_neg hc] at h
      cases hr : removeFirstFit asize cs with
      | none => rw [hr] at h; cases h
      | some pr =>
        obtain ⟨m, r⟩ := pr
        rw [hr] at h
        have hpair := Option.some.inj h
        have hm : m = b := congrArg Prod.fst hpair
        have hrest : c :: r = rest := congrArg Prod.snd hpair
        obtain ⟨h1, h2, h3, h4⟩ := ih m r hr
        rw [← hm, ← hrest]
        refine ⟨h1, ?_, List.mem_cons_of_mem c h3, ?_⟩
        · simp only [sumFree, h2]; omega
        · intro x hx
          rcases List.mem_cons.mp hx with rfl | hmem
          · exact List.mem_cons_self x cs
          · exact List.mem_cons_of_mem c (h4 x hmem)

/-! ## Claim C3: exhaustion returns nullptr -/

/-- C3: `allocate` returns `nullptr` (it is a total function — it throws
nothing) exactly when no free block can hold the aligned size; and on a
1024-byte pool, `allocate(1024, 8)` (the default `sizeof(void*)`
alignment) succeeds with the pool base while a subsequent
`allocate(1, 8)` returns `nullptr`, the arena never having grown. -/
theorem C3_exhaustion (st : AllocState) (size alignment : Nat) :
    ((allocate st size alignment).1 = none ↔
      ∀ b ∈ st.free_blocks, b.size < align_up size alignment) ∧
    ((allocate (init_state 1024) 1024 8).1 = some 0 ∧
     (allocate (allocate (init_state 1024) 1024 8).2 1 8).1 = none ∧
     (allocate (allocate (init_state 1024) 1024 8).2 1 8).2.pool_size = 1024) := by
  constructor
  · cases hr : removeFirstFit (align_up size alignment) st.free_blocks with
    | none =>
      rw [allocate_eq_none st size alignment hr]
      exact ⟨fun _ => (removeFirstFit_none_iff _ _).mp hr, fun _ => rfl⟩
    | some pr =>
      obtain ⟨blk, rest⟩ := pr
      rw [allocate_eq_some st size alignment blk rest hr]
      constructor
      · intro hc; cases hc
      · intro hall
        rw [(removeFirstFit_none_iff _ _).mpr hall] at hr
        cases hr
  · exact ⟨by decide, by decide, by decide⟩

/-- C3 witness: the general exhaustion criterion applied to the
concrete exhausted pool: after `allocate(1024, 8)` the free list is
empty, so `allocate(1, 8)` returns `nullptr`. -/
theorem C3_exhaustion_witness :
    ((allocate (allocate (init_state 1024) 1024 8).2 1 8).1 = none) ∧
    (∀ b ∈ (allocate (init_state 1024) 1024 8).2.free_blocks,
      b.size < align_up 1 8) := by
  constructor
  · exact (C3_exhaustion (allocate (init_state 1024) 1024 8).2 1 8).2.2.1
  · exact (C3_exhaustion (allocate (init_state 1024) 1024 8).2 1 8).1.mp
      (by decide)

/-! ## Claim C9: deallocate of null or unknown pointers is a no-op -/

/-- C9: `deallocate(ptr, size)` with `ptr` null or not a currently live
allocation leaves the entire allocator state — free list, allocated
map, allocated byte total, and every statistics counter — unchanged. -/
theorem C9_dealloc_noop (st : AllocState) (ptr : Option Nat) (size : Nat)
    (h : ptr = none ∨ ∀ p, ptr = some p → lookupBlock st.allocated_blocks p = none) :
    deallocate st ptr size = st := by
  cases ptr with
  | none => rfl
  | some p =>
    rcases h with h | h
    · cases h
    · exact deallocate_not_found st p size (h p rfl)

/-- C9 witness: on a fresh 1024-byte pool, deallocating the null
pointer and deallocating the never-allocated offset 5 both leave the
state unchanged. -/
theorem C9_dealloc_noop_witness :
    deallocate (init_state 1024) none 16 = init_state 1024 ∧
    deallocate (init_state 1024) (some 5) 16 = init_state 1024 := by
  constructor
  · exact C9_dealloc_noop (init_state 1024) none 16 (Or.inl rfl)
  · exact C9_dealloc_noop (init_state 1024) (some 5) 16
      (Or.inr (by intro p hp; cases hp; decide))

/-! ## Claim C10: merge pass bounds, empty free list -/

/-- C10: the claim says every access of the merge pass stays in bounds,
including when the free-block list is empty.  It does not: the loop
bound `free_blocks_.size() - 1` is computed in `size_t`, and with an
empty vector it wraps to `2^64 - 1`, so the loop is entered and its
first iteration reads `free_blocks_[0]` and `free_blocks_[1]` out of
bounds.  The empty free list is reachable through the public API:
`allocate(1024, 8)` on a 1024-byte pool consumes the whole arena, and
`compact()` then runs the merge pass on the empty list. -/
theorem C10_merge_oob :
    (runOps (init_state 1024) [AllocOp.alloc 1024 8]).free_blocks = [] ∧
    ¬ merge_accesses_in_bounds
        (runOps (init_state 1024) [AllocOp.alloc 1024 8]).free_blocks := by
  constructor
  · decide
  · decide

theorem sumFree_append (l m : List FreeBlock) :
    sumFree (l ++ m) = sumFree l + sumFree m := by
  induction l with
  | nil => simp [sumFree]
  | cons b bs ih => simp [sumFree, ih]; omega

theorem sumFree_insertByPtr (b : FreeBlock) (l : List FreeBlock) :
    sumFree (insertByPtr b l) = b.size + sumFree l := by
  induction l with
  | nil => simp [insertByPtr, sumFree]
  | cons c cs ih =>
    by_cases h : b.ptr ≤ c.ptr
    · simp [insertByPtr, h, sumFree]
    · simp [insertByPtr, h, sumFree, ih]; omega

theorem sumFree_sortByPtr (l : List FreeBlock) :
    sumFree (sortByPtr l) = sumFree l := by
  induction l with
  | nil => rfl
  | cons b bs ih => simp [sortByPtr, sumFree_insertByPtr, ih, sumFree]

theorem sumFree_mergeAdjacent (l : List FreeBlock) :
    sumFree (mergeAdjacent l) = sumFree l := by
  induction l using mergeAdjacent.induct with
  | case1 => simp [mergeAdjacent]
  | case2 b => simp [mergeAdjacent]
  | case3 a b rest h ih =>
    rw [mergeAdjacent, if_pos h]
    simp [sumFree] at ih ⊢
    omega
  | case4 a b rest h ih =>
    rw [mergeAdjacent, if_neg h]
    simp [sumFree] at ih ⊢
    omega

/-- The merge pass moves no bytes: it only coalesces adjacent blocks. -/
theorem sumFree_merge_free_blocks (l : List FreeBlock) :
    sumFree (merge_free_blocks l) = sumFree l := by
  rw [merge_free_blocks, sumFree_mergeAdjacent, sumFree_sortByPtr]

theorem sumAlloc_filter_le (f : Nat × Nat → Bool) (l : List (Nat × Nat)) :
    sumAlloc (l.filter f) ≤ sumAlloc l := by
  induction l with
  | nil => simp [sumAlloc]
  | cons q qs ih =>
    by_cases h : f q
    · simp only [List.filter_cons, h, if_pos, sumAlloc]
      omega
    · simp only [List.filter_cons, if_neg h, sumAlloc]
      omega

/-- Removing a found allocation frees at least its recorded size. -/
theorem lookupBlock_filter_sum (l : List (Nat × Nat)) (p s : Nat)
    (h : lookupBlock l p = some s) :
    s + sumAlloc (l.filter (fun q => q.1 ≠ p)) ≤ sumAlloc l := by
  induction l with
  | nil => simp [lookupBlock] at h
  | cons q qs ih =>
    by_cases hq : q.1 = p
    · have hfind : (q :: qs).find? (fun r => r.1 = p) = some q :=
        List.find?_cons_of_pos _ (by simp [hq])
      have hs : s = q.2 := by
        unfold lookupBlock at h
        rw [hfind] at h
        exact (Option.some.inj h).symm
      have hdrop : (q :: qs).filter (fun r => r.1 ≠ p) =
          qs.filter (fun r => r.1 ≠ p) :=
        List.filter_cons_of_neg (by simp [hq])
      rw [hs, hdrop]
      have := sumAlloc_filter_le (fun r => r.1 ≠ p) qs
      simp only [sumAlloc]
      omega
    · have hfind : (q :: qs).find? (fun r => r.1 = p) = qs.find? (fun r => r.1 = p) :=
        List.find?_cons_of_neg _ (by simp [hq])
      have h' : lookupBlock qs p = some s := by
        unfold lookupBlock at h ⊢
        rw [hfind] at h
        exact h
      have hkeep : (q :: qs).filter (fun r => r.1 ≠ p) =
          q :: qs.filter (fun r => r.1 ≠ p) :=
        List.filter_cons_of_pos (by simp [hq])
      rw [hkeep]
      have := ih h'
      simp only [sumAlloc]
      omega

/-- One `allocate` call never increases the tracked bytes: it conserves
them when it splits, and drops the block's tail when the leftover is at
most `alignment` bytes. -/
theorem allocate_sum_le (st : AllocState) (size alignment : Nat) :
    sumFree (allocate st size alignment).2.free_blocks +
      sumAlloc (allocate st size alignment).2.allocated_blocks ≤
      sumFree st.free_blocks + sumAlloc st.allocated_blocks := by
  cases hr : removeFirstFit (align_up size alignment) st.free_blocks with
  | none =>
    rw [allocate_eq_none st size alignment hr]
  | some pr =>
    obtain ⟨blk, rest⟩ := pr
    rw [allocate_eq_some st size alignment blk rest hr]
    obtain ⟨h1, h2, _, _⟩ := removeFirstFit_spec _ _ _ _ hr
    have hf := sumAlloc_filter_le (fun q => q.1 ≠ blk.ptr) st.allocated_blocks
    dsimp only
    by_cases hsplit : align_up size alignment + alignment < blk.size
    · rw [if_pos hsplit, sumFree_append]
      simp only [sumFree, sumAlloc]
      omega
    · rw [if_neg hsplit]
      simp only [sumFree, sumAlloc]
      omega

/-- One `deallocate` call never increases the tracked bytes. -/
theorem deallocate_sum_le (st : AllocState) (ptr : Option Nat) (size : Nat) :
    sumFree (deallocate st ptr size).free_blocks +
      sumAlloc (deallocate st ptr size).allocated_blocks ≤
      sumFree st.free_blocks + sumAlloc st.allocated_blocks := by
  cases ptr with
  | none => exact le_refl _
  | some p =>
    cases hl : lookupBlock st.allocated_blocks p with
    | none =>
      rw [deallocate_not_found st p size hl]
    | some block_size =>
      rw [deallocate_found st p size block_size hl]
      dsimp only
      rw [sumFree_merge_free_blocks, sumFree_append]
      have := lookupBlock_filter_sum st.allocated_blocks p block_size hl
      simp only [sumFree]
      omega

/-- The tracked-byte bound is preserved along any call sequence. -/
theorem runOps_sum_le (ops : List AllocOp) (st : AllocState) :
    sumFree (runOps st ops).free_blocks + sumAlloc (runOps st ops).allocated_blocks ≤
      sumFree st.free_blocks + sumAlloc st.allocated_blocks := by
  induction ops generalizing st with
  | nil => exact le_refl _
  | cons op ops ih =>
    cases op with
    | alloc s a => exact le_trans (ih (allocate st s a).2) (allocate_sum_le st s a)
    | dealloc p s => exact le_trans (ih (deallocate st p s)) (deallocate_sum_le st p s)

/-! ## Claim C1: allocator tiling invariant -/

/-- C1 counterexample: the sequence `allocate(100, 4); allocate(920, 8)`
on a 1024-byte pool stays within capacity (both calls succeed, at
offsets 0 and 100), yet afterwards the free-block sizes plus the live
allocated sizes add up to 1020, not the pool size 1024: the second call
chooses the 924-byte free block for its 920 aligned bytes, and since
924 is not greater than 920 + 8 no remainder block is split off — the 4
leftover bytes are dropped from both lists. -/
theorem C1_tiling_counterexample :
    ((allocate (init_state 1024) 100 4).1 = some 0) ∧
    ((allocate (allocate (init_state 1024) 100 4).2 920 8).1 = some 100) ∧
    (sumFree (runOps (init_state 1024)
        [AllocOp.alloc 100 4, AllocOp.alloc 920 8]).free_blocks +
      sumAlloc (runOps (init_state 1024)
        [AllocOp.alloc 100 4, AllocOp.alloc 920 8]).allocated_blocks = 1020) ∧
    (sumFree (runOps (init_state 1024)
        [AllocOp.alloc 100 4, AllocOp.alloc 920 8]).free_blocks +
      sumAlloc (runOps (init_state 1024)
        [AllocOp.alloc 100 4, AllocOp.alloc 920 8]).allocated_blocks ≠
      (runOps (init_state 1024)
        [AllocOp.alloc 100 4, AllocOp.alloc 920 8]).pool_size) := by
  exact ⟨by decide, by decide, by decide, by decide⟩

/-- C1 amended: for every sequence of allocate/deallocate calls, the sum
of all free-block sizes plus the sizes of all live allocated blocks
never exceeds the original pool size (blocks never overlap-count bytes);
equality can fail, because `allocate` drops the tail of the chosen free
block whenever the block exceeds the aligned size by no more than
`alignment` bytes, leaving a permanent gap until `reset()`. -/
theorem C1_tiling_bound (pool_size : Nat) (ops : List AllocOp) :
    sumFree (runOps (init_state pool_size) ops).free_blocks +
      sumAlloc (runOps (init_state pool_size) ops).allocated_blocks ≤
      pool_size := by
  have h := runOps_sum_le ops (init_state pool_size)
  simpa [init_state, sumFree, sumAlloc] using h

/-- C1 witness: the bound evaluated on the counterexample trace — the
tracked bytes after `allocate(100, 4); allocate(920, 8)` stay at or
below the 1024-byte pool size. -/
theorem C1_tiling_bound_witness :
    sumFree (runOps (init_state 1024)
        [AllocOp.alloc 100 4, AllocOp.alloc 920 8]).free_blocks +
      sumAlloc (runOps (init_state 1024)
        [AllocOp.alloc 100 4, AllocOp.alloc 920 8]).allocated_blocks ≤ 1024 :=
  C1_tiling_bound 1024 [AllocOp.alloc 100 4, AllocOp.alloc 920 8]

/-! ## Claim C2: alignment of returned pointers -/

/-- Whether a call uses alignment `A` (deallocations have no alignment). -/
def op_uses_alignment (A : Nat) : AllocOp → Prop
  | AllocOp.alloc _ a => a = A
  | AllocOp.dealloc _ _ => True

/-- Every block start tracked by the allocator is a multiple of `A`. -/
def ptrs_aligned (A : Nat) (st : AllocState) : Prop :=
  (∀ b ∈ st.free_blocks, A ∣ b.ptr) ∧ (∀ q ∈ st.allocated_blocks, A ∣ q.1)

/-- The rounded size is a multiple of the alignment. -/
theorem dvd_align_up (s A : Nat) : A ∣ align_up s A := by
  unfold align_up
  dsimp only
  have h := Nat.div_add_mod ((s + A - 1) % 2 ^ 64) A
  exact ⟨(s + A - 1) % 2 ^ 64 / A, by omega⟩

theorem mem_insertByPtr (x b : FreeBlock) (l : List FreeBlock) :
    x ∈ insertByPtr b l ↔ x = b ∨ x ∈ l := by
  induction l with
  | nil => simp [insertByPtr]
  | cons c cs ih =>
    by_cases h : b.ptr ≤ c.ptr
    · simp [insertByPtr, h]
    · simp [insertByPtr, h, ih]
      tauto

theorem mem_sortByPtr (x : FreeBlock) (l : List FreeBlock) :
    x ∈ sortByPtr l ↔ x ∈ l := by
  induction l with
  | nil => simp [sortByPtr]
  | cons b bs ih => simp [sortByPtr, mem_insertByPtr, ih]

/-- Every block the merge loop produces starts where some input block
started (merging keeps the left block's start). -/
theorem mergeAdjacent_ptr_mem (l : List FreeBlock) (b : FreeBlock)
    (hb : b ∈ mergeAdjacent l) : ∃ c ∈ l, c.ptr = b.ptr := by
  induction l using mergeAdjacent.induct with
  | case1 => simp [mergeAdjacent] at hb
  | case2 x =>
    simp [mergeAdjacent] at hb
    exact ⟨x, List.mem_singleton_self x, by rw [hb]⟩
  | case3 a c rest h ih =>
    rw [mergeAdjacent, if_pos h] at hb
    obtain ⟨d, hd, hptr⟩ := ih hb
    rcases List.mem_cons.mp hd with rfl | hmem
    · exact ⟨a, List.mem_cons_self a _, hptr⟩
    · exact ⟨d, List.mem_cons_of_mem a (List.mem_cons_of_mem c hmem), hptr⟩
  | case4 a c rest h ih =>
    rw [mergeAdjacent, if_neg h] at hb
    rcases List.mem_cons.mp hb with rfl | hmem
    · exact ⟨b, List.mem_cons_self b _, rfl⟩
    · obtain ⟨d, hd, hptr⟩ := ih hmem
      exact ⟨d, List.mem_cons_of_mem a hd, hptr⟩

theorem merge_free_blocks_ptr_mem (l : List FreeBlock) (b : FreeBlock)
    (hb : b ∈ merge_free_blocks l) : ∃ c ∈ l, c.ptr = b.ptr := by
  obtain ⟨c, hc, hptr⟩ := mergeAdjacent_ptr_mem (sortByPtr l) b hb
  exact ⟨c, (mem_sortByPtr c l).mp hc, hptr⟩

/-- A successful lookup comes from an entry of the map. -/
theorem lookupBlock_mem (l : List (Nat × Nat)) (p s : Nat)
    (h : lookupBlock l p = some s) : (p, s) ∈ l := by
  unfold lookupBlock at h
  cases hf : l.find? (fun q => q.1 = p) with
  | none => rw [hf] at h; cases h
  | some q =>
    rw [hf] at h
    have hmem := List.mem_of_find?_eq_some hf
    have hpred := List.find?_some hf
    have hq1 : q.1 = p := by simpa using hpred
    have hq2 : q.2 = s := Option.some.inj h
    have hq : q = (p, s) := by
      cases q
      simp only at hq1 hq2
      rw [hq1, hq2]
    rw [← hq]
    exact hmem

/-- Source `allocate` with alignment `A` keeps every tracked block start a
multiple of `A`: the returned pointer is a fitting free block's start,
and the split point `ptr + aligned_size` adds two multiples of `A`. -/
theorem allocate_ptrs_aligned (A : Nat) (st : AllocState) (size : Nat)
    (h : ptrs_aligned A st) : ptrs_aligned A (allocate st size A).2 := by
  cases hr : removeFirstFit (align_up size A) st.free_blocks with
  | none => rw [allocate_eq_none st size A hr]; exact h
  | some pr =>
    obtain ⟨blk, rest⟩ := pr
    rw [allocate_eq_some st size A blk rest hr]
    obtain ⟨hfree, halloc⟩ := h
    obtain ⟨_, _, hmem, hrest⟩ := removeFirstFit_spec _ _ _ _ hr
    have hblk : A ∣ blk.ptr := hfree blk hmem
    constructor
    · intro b hb
      dsimp only at hb
      by_cases hsplit : align_up size A + A < blk.size
      · rw [if_pos hsplit] at hb
        rcases List.mem_append.mp hb with hb | hb
        · exact hfree b (hrest b hb)
        · rcases List.mem_singleton.mp hb with rfl
          show A ∣ blk.ptr + align_up size A
          exact Nat.dvd_add hblk (dvd_align_up size A)
      · rw [if_neg hsplit] at hb
        exact hfree b (hrest b hb)
    · intro q hq
      dsimp only at hq
      rcases List.mem_cons.mp hq with rfl | hq
      · exact hblk
      · exact halloc q (List.mem_filter.mp hq).1

/-- Source `deallocate` keeps every tracked block start a multiple of `A`: the
freed pointer comes from the allocated map, and merging keeps starts. -/
theorem deallocate_ptrs_aligned (A : Nat) (st : AllocState) (ptr : Option Nat)
    (size : Nat) (h : ptrs_aligned A st) :
    ptrs_aligned A (deallocate st ptr size) := by
  cases ptr with
  | none => exact h
  | some p =>
    cases hl : lookupBlock st.allocated_blocks p with
    | none => rw [deallocate_not_found st p size hl]; exact h
    | some block_size =>
      rw [deallocate_found st p size block_size hl]
      obtain ⟨hfree, halloc⟩ := h
      have hp : A ∣ p := halloc (p, block_size) (lookupBlock_mem _ _ _ hl)
      constructor
      · intro b hb
        dsimp only at hb
        obtain ⟨c, hc, hptr⟩ := merge_free_blocks_ptr_mem _ b hb
        rcases List.mem_append.mp hc with hc | hc
        · rw [← hptr]; exact hfree c hc
        · rcases List.mem_singleton.mp hc with rfl
          rw [← hptr]; exact hp
      · intro q hq
        dsimp only at hq
        exact halloc q (List.mem_filter.mp hq).1

/-- Along any trace whose allocations all use alignment `A`, every
tracked block start stays a multiple of `A`. -/
theorem runOps_ptrs_aligned (A : Nat) (ops : List AllocOp) (st : AllocState)
    (hops : ∀ op ∈ ops, op_uses_alignment A op) (h : ptrs_aligned A st) :
    ptrs_aligned A (runOps st ops) := by
  induction ops generalizing st with
  | nil => exact h
  | cons op ops ih =>
    cases op with
    | alloc s a =>
      have ha : a = A := hops (AllocOp.alloc s a) (List.mem_cons_self _ _)
      subst ha
      exact ih (allocate st s a).2 (fun o ho => hops o (List.mem_cons_of_mem _ ho))
        (allocate_ptrs_aligned a st s h)
    | dealloc p s =>
      exact ih (deallocate st p s) (fun o ho => hops o (List.mem_cons_of_mem _ ho))
        (deallocate_ptrs_aligned A st p s h)

/-- C2 counterexample: `allocate` never adjusts the returned pointer for
alignment — it only rounds the size.  On a fresh 1024-byte pool,
`allocate(4, 4)` returns offset 0 and leaves a free block starting at
offset 4; the next call `allocate(8, 8)` returns that block's start,
offset 4, which is not 8-aligned (the `mmap` pool base is page-aligned,
so base + 4 is not 8-byte aligned either). -/
theorem C2_alignment_counterexample :
    ((allocate (runOps (init_state 1024) [AllocOp.alloc 4 4]) 8 8).1 = some 4) ∧
    (4 % 8 ≠ 0) := by
  exact ⟨by decide, by decide⟩

/-- C2 amended: the returned pointer is the start of the first fitting
free block, unadjusted (no prefix/suffix alignment splitting), so it is
guaranteed aligned only when every allocation on the allocator uses one
and the same alignment `A`: block starts are then always multiples of
`A` (as offsets from the page-aligned pool base), and in particular
every pointer `allocate(size, A)` returns satisfies `p % A = 0`.  With
mixed alignments an unaligned pointer can be returned. -/
theorem C2_alignment_uniform (A pool_size s p : Nat) (ops : List AllocOp)
    (hops : ∀ op ∈ ops, op_uses_alignment A op)
    (hp : (allocate (runOps (init_state pool_size) ops) s A).1 = some p) :
    p % A = 0 := by
  have hinit : ptrs_aligned A (init_state pool_size) := by
    constructor
    · intro b hb
      simp only [init_state] at hb
      rcases List.mem_singleton.mp hb with rfl
      show A ∣ 0
      exact dvd_zero A
    · intro q hq
      simp [init_state] at hq
  have hinv : ptrs_aligned A (runOps (init_state pool_size) ops) :=
    runOps_ptrs_aligned A ops (init_state pool_size) hops hinit
  cases hr : removeFirstFit (align_up s A)
      (runOps (init_state pool_size) ops).free_blocks with
  | none =>
    rw [allocate_eq_none _ s A hr] at hp
    cases hp
  | some pr =>
    obtain ⟨blk, rest⟩ := pr
    rw [allocate_eq_some _ s A blk rest hr] at hp
    have hmem := (removeFirstFit_spec _ _ _ _ hr).2.2.1
    have hdvd : A ∣ blk.ptr := hinv.1 blk hmem
    have hbp : blk.ptr = p := Option.some.inj hp
    rw [← hbp]
    obtain ⟨c, hc⟩ := hdvd
    rw [hc]
    exact Nat.mul_mod_right A c

/-- C2 witness: with every call using alignment 8 on a 1024-byte pool
(`allocate(8, 8)` then another `allocate(8, 8)`), the second call
returns offset 8, which is 8-aligned. -/
theorem C2_alignment_uniform_witness :
    ((allocate (runOps (init_state 1024) [AllocOp.alloc 8 8]) 8 8).1 = some 8) ∧
    (8 % 8 = 0) := by
  constructor
  · decide
  · exact C2_alignment_uniform 8 1024 8 8 [AllocOp.alloc 8 8]
      (by
        intro op hop
        rcases List.mem_singleton.mp hop with rfl
        show (8 : Nat) = 8
        rfl)
      (by decide)

end Hushell
